import Mathlib

/-!
# Verification of the `UserManager` record store (`data_management.py`)

Shallow embedding of the JSON-backed user record store.  A Python dict is
modelled as an insertion-ordered association list `Record` with string keys
and `Value` (string / int) values; the in-memory collection `self.users` is a
`List Record`.  Each operation of the class `UserManager` is translated into a
pure function returning a `Signal` (the printed outcome / boolean result,
with `Signal.exc` standing for a raised Python exception such as `KeyError`
or `TypeError`) together with the resulting collection; failure paths return
the collection unchanged, exactly as the Python code leaves `self.users`
untouched on every `return False` path and on every raising path.

Python truthiness is modelled explicitly: `if user_id:` treats `None`, the
empty string and the integer `0` as false, and `if self.read_user(...):`
tests the truthiness of the returned dict or list.
-/

namespace UserManager

/-- A Python value stored in a user record: the program only ever stores
strings and ints in records (ids, names, emails are strings, ages ints). -/
inductive Value
| str : String → Value
| int : Int → Value
deriving DecidableEq, Repr

/-- Python truthiness of a value: empty string and zero are falsy. -/
def Value.truthy : Value → Bool
| Value.str s => !s.isEmpty
| Value.int n => n != 0

/-- A Python dict modelling one user record: an insertion-ordered
association list from string keys to values. -/
abbrev Record := List (String × Value)

/-- `d[k]` as a total lookup: `Option.none` models a `KeyError`. -/
def lookup (r : Record) (k : String) : Option Value :=
  (r.find? (fun p => p.1 == k)).map (fun p => p.2)

/-- Python dict assignment `d[k] = v`: replace the value in place if the key
is present, otherwise append the new key at the end. -/
def dictInsert : Record → String → Value → Record
| [], k, v => [(k, v)]
| p :: rest, k, v => if p.1 = k then (k, v) :: rest else p :: dictInsert rest k v

/-- Python `d.update(other)`: fold dict assignment over the entries of
`other` in order. -/
def dictUpdate (r : Record) (other : Record) : Record :=
  other.foldl (fun acc p => dictInsert acc p.1 p.2) r

/-- Outcome of an operation: `ok` is `return True` (with persistence),
`dupId` / `invalidEmail` / `notFound` are the distinct `return False` paths
(distinguished in the source by the message printed), `exc` is a raised
Python exception. -/
inductive Signal
| ok
| dupId
| invalidEmail
| notFound
| exc
deriving DecidableEq, Repr

/-- Result of `read_user`: a single found record, `None`, or the whole
collection (returned when the id argument is falsy or omitted);
`exc` models a `KeyError` raised while scanning. -/
inductive ReadResult
| found : Record → ReadResult
| notFound : ReadResult
| allUsers : List Record → ReadResult
| exc : ReadResult
deriving DecidableEq, Repr

/-- Python truthiness of a `read_user` result: a dict is truthy iff
non-empty, `None` is falsy, a list is truthy iff non-empty. -/
def ReadResult.truthy : ReadResult → Bool
| ReadResult.found u => !u.isEmpty
| ReadResult.notFound => false
| ReadResult.allUsers l => !l.isEmpty
| ReadResult.exc => false

/-- The scan `for user in self.users: if user['id'] == user_id: return user`
followed by `return None`; a record without an `'id'` key raises. -/
def scanFind : List Record → Value → ReadResult
| [], _ => ReadResult.notFound
| u :: rest, v =>
  match lookup u "id" with
  | Option.none => ReadResult.exc
  | Option.some w => if w == v then ReadResult.found u else scanFind rest v

/-- `read_user(self, user_id=None)`: `if user_id:` scan for the first match,
else return the full collection.  The id argument is tested for truthiness,
not for presence. -/
def read_user (users : List Record) (user_id : Option Value) : ReadResult :=
  match user_id with
  | Option.some v => if v.truthy then scanFind users v else ReadResult.allUsers users
  | Option.none => ReadResult.allUsers users

/-- The character class `[a-zA-Z0-9_.+-]` of the local part of the email
regular expression in `validate_email`. -/
def localChars : List Char :=
  "abcdefghijklmnopqrstuvwxyzABCDEFGHIJKLMNOPQRSTUVWXYZ0123456789_.+-".data

/-- The character class `[a-zA-Z0-9-]` of the domain part. -/
def domainChars : List Char :=
  "abcdefghijklmnopqrstuvwxyzABCDEFGHIJKLMNOPQRSTUVWXYZ0123456789-".data

/-- The character class `[a-zA-Z0-9-.]` of the top-level-domain part. -/
def tldChars : List Char :=
  "abcdefghijklmnopqrstuvwxyzABCDEFGHIJKLMNOPQRSTUVWXYZ0123456789-.".data

/-- A character class `[...]`: the union of the single-character regular
expressions of its members. -/
def cls (cs : List Char) : RegularExpression Char :=
  cs.foldr (fun c r => RegularExpression.char c + r) 0

/-- `R+`, one or more repetitions: `R · R*`. -/
def rep1 (r : RegularExpression Char) : RegularExpression Char :=
  r * r.star

/-- The regular expression `[a-zA-Z0-9_.+-]+@[a-zA-Z0-9-]+\.[a-zA-Z0-9-.]+`
from `validate_email` (the `^`, `$` anchors and the group are handled in
`validate_email` itself, following Python `re.match` semantics). -/
def emailRE : RegularExpression Char :=
  rep1 (cls localChars) *
    (RegularExpression.char '@' *
      (rep1 (cls domainChars) *
        (RegularExpression.char '.' * rep1 (cls tldChars))))

/-- `validate_email(email)`: `re.match(r"(^...$)", email) is not None`.
`re.match` anchors the match at the start of the string, and the `$` (without
`re.MULTILINE`) lets the match end either at the very end of the string or
just before a newline that is the last character, so the string matches iff
the core pattern matches all of it, or all of it minus one trailing
newline. -/
def validate_email (email : String) : Bool :=
  emailRE.rmatch email.data ||
    (email.data.getLast? == Option.some '\n' && emailRE.rmatch email.data.dropLast)

/-- `create_user(self, user)`: duplicate-id check first, via the truthiness
of `self.read_user(user['id'])`, then email validation, then append and
persist.  Missing `'id'`/`'email'` keys and non-string emails raise. -/
def create_user (users : List Record) (user : Record) : Signal × List Record :=
  match lookup user "id" with
  | Option.none => (Signal.exc, users)
  | Option.some uid =>
    let r := read_user users (Option.some uid)
    if r = ReadResult.exc then (Signal.exc, users)
    else if r.truthy then (Signal.dupId, users)
    else
      match lookup user "email" with
      | Option.none => (Signal.exc, users)
      | Option.some (Value.int _) => (Signal.exc, users)
      | Option.some (Value.str em) =>
        if validate_email em then (Signal.ok, users ++ [user])
        else (Signal.invalidEmail, users)

/-- `update_user(self, user_id, updated_user)`: scan for the first record
whose `'id'` equals `user_id` (no truthiness test on the id here); on a
match, validate `updated_user['email']` when the key is present, then merge
with `user.update(updated_user)` and persist; fall through to
`return False` when no record matches. -/
def update_user : List Record → Value → Record → Signal × List Record
| [], _, _ => (Signal.notFound, [])
| u :: rest, uid, updated_user =>
  match lookup u "id" with
  | Option.none => (Signal.exc, u :: rest)
  | Option.some w =>
    if w == uid then
      match lookup updated_user "email" with
      | Option.some (Value.str em) =>
        if validate_email em then (Signal.ok, dictUpdate u updated_user :: rest)
        else (Signal.invalidEmail, u :: rest)
      | Option.some (Value.int _) => (Signal.exc, u :: rest)
      | Option.none => (Signal.ok, dictUpdate u updated_user :: rest)
    else
      let r := update_user rest uid updated_user
      (r.1, u :: r.2)

/-- `delete_user(self, user_id)`: scan for the first record whose `'id'`
equals `user_id`, remove it (`self.users.remove(user)` removes the first
list element equal to the found record, which is the found record itself,
since every earlier record differs from it on `'id'`), persist; fall through
to `return False` when no record matches. -/
def delete_user : List Record → Value → Signal × List Record
| [], _ => (Signal.notFound, [])
| u :: rest, uid =>
  match lookup u "id" with
  | Option.none => (Signal.exc, u :: rest)
  | Option.some w =>
    if w == uid then (Signal.ok, rest)
    else
      let r := delete_user rest uid
      (r.1, u :: r.2)

/-- Python `str.lower()`, modelled characterwise (the ASCII case mapping;
the kernel-computable counterpart of mapping `Char.toLower` over the
string's characters). -/
def strLower (s : String) : String :=
  String.mk (s.data.map Char.toLower)

/-- The list comprehension filtering on `user['name'].lower() ==
name.lower()`: `Option.none` models a raised exception (`KeyError` for a
missing key, `AttributeError` for `.lower()` on a non-string). -/
def filterName : List Record → String → Option (List Record)
| [], _ => Option.some []
| u :: rest, n =>
  match lookup u "name" with
  | Option.some (Value.str s) =>
    (filterName rest n).map (fun r => if strLower s == strLower n then u :: r else r)
  | _ => Option.none

/-- The list comprehension filtering on `user['email'].lower() ==
email.lower()`. -/
def filterEmail : List Record → String → Option (List Record)
| [], _ => Option.some []
| u :: rest, e =>
  match lookup u "email" with
  | Option.some (Value.str s) =>
    (filterEmail rest e).map (fun r => if strLower s == strLower e then u :: r else r)
  | _ => Option.none

/-- The list comprehension filtering on `user['age'] == age`: comparing an
int against a non-int Python value is `False`, not an error. -/
def filterAge : List Record → Int → Option (List Record)
| [], _ => Option.some []
| u :: rest, a =>
  match lookup u "age" with
  | Option.some v =>
    (filterAge rest a).map (fun r => if v == Value.int a then u :: r else r)
  | Option.none => Option.none

/-- `search_users(self, name=None, email=None, age=None)`: each criterion is
gated by `if name:` / `if email:` / `if age:`, so an absent criterion, an
empty string, and the age `0` all skip their filter; the applied filters
compose left to right over the running result list. -/
def search_users (users : List Record) (name email : Option String)
    (age : Option Int) : Option (List Record) :=
  let step1 :=
    match name with
    | Option.some n => if n.isEmpty then Option.some users else filterName users n
    | Option.none => Option.some users
  match step1 with
  | Option.none => Option.none
  | Option.some r1 =>
    let step2 :=
      match email with
      | Option.some e => if e.isEmpty then Option.some r1 else filterEmail r1 e
      | Option.none => Option.some r1
    match step2 with
    | Option.none => Option.none
    | Option.some r2 =>
      match age with
      | Option.some a => if a == 0 then Option.some r2 else filterAge r2 a
      | Option.none => Option.some r2

/-- A JSON value, as produced by parsing the backing file: the collection
only ever serializes arrays, objects, strings and ints. -/
inductive Json
| str : String → Json
| int : Int → Json
| arr : List Json → Json
| obj : List (String × Json) → Json

/-- Serialization of one stored value. -/
def encodeValue : Value → Json
| Value.str s => Json.str s
| Value.int n => Json.int n

/-- Serialization of one record: a JSON object listing the dict entries in
insertion order, as `json.dump` does for a Python dict. -/
def encodeRecord (r : Record) : Json :=
  Json.obj (r.map (fun p => (p.1, encodeValue p.2)))

/-- Modelled from the spec: `save_users` runs `json.dump(self.users, file,
indent=4)`, a whole-file overwrite with the serialized collection; the
`json` library itself is not part of the repository, so the file content is
modelled at the level of the JSON value it parses back to. -/
def save_users (users : List Record) : Json :=
  Json.arr (users.map encodeRecord)

/-- Parsing a list of JSON values elementwise, failing on the first failure,
as building a Python list does. -/
def decodeList {α β : Type} (f : α → Option β) : List α → Option (List β)
| [] => Option.some []
| j :: rest =>
  match f j with
  | Option.none => Option.none
  | Option.some b => (decodeList f rest).map (fun l => b :: l)

/-- Parsing one stored value back from JSON. -/
def decodeValue : Json → Option Value
| Json.str s => Option.some (Value.str s)
| Json.int n => Option.some (Value.int n)
| _ => Option.none

/-- Parsing one record back from a JSON object. -/
def decodeRecord : Json → Option Record
| Json.obj l => decodeList (fun p => (decodeValue p.2).map (fun v => (p.1, v))) l
| _ => Option.none

/-- Modelled from the spec: `load_users` reads the whole file and runs
`json.load`, which yields the parsed JSON value; a missing file yields the
empty collection.  Decoding failure models content that does not parse back
into a collection of records. -/
def load_users (file : Option Json) : Option (List Record) :=
  match file with
  | Option.none => Option.some []
  | Option.some (Json.arr l) => decodeList decodeRecord l
  | Option.some _ => Option.none

/-! ## Well-formedness predicates, search criteria and demonstration data -/

/-- Every record of the collection carries an `'id'` key (as the spec's data
model requires of a User Record). -/
abbrev allHaveId (users : List Record) : Prop :=
  ∀ u ∈ users, (lookup u "id").isSome = true

/-- No two records of the collection carry the same `'id'` value. -/
abbrev idsNodup (users : List Record) : Prop :=
  (users.map (fun u => lookup u "id")).Nodup

/-- The keys of a record are pairwise distinct, as they are in any Python
dict. -/
abbrev keysNodup (r : Record) : Prop :=
  (r.map Prod.fst).Nodup

/-- The record has a string value at the given key. -/
def isStrAt (u : Record) (k : String) : Bool :=
  match lookup u k with
  | Option.some (Value.str _) => true
  | _ => false

/-- Records on which `search_users` cannot raise: string `'name'`, string
`'email'`, and a present `'age'` key. -/
abbrev searchWF (users : List Record) : Prop :=
  ∀ u ∈ users,
    isStrAt u "name" = true ∧ isStrAt u "email" = true ∧ (lookup u "age").isSome = true

/-- The test `user['name'].lower() == name.lower()` of the name filter. -/
def nameMatches (u : Record) (n : String) : Bool :=
  match lookup u "name" with
  | Option.some (Value.str s) => strLower s == strLower n
  | _ => false

/-- The test `user['email'].lower() == email.lower()` of the email filter. -/
def emailMatches (u : Record) (e : String) : Bool :=
  match lookup u "email" with
  | Option.some (Value.str s) => strLower s == strLower e
  | _ => false

/-- The test `user['age'] == age` of the age filter. -/
def ageMatches (u : Record) (a : Int) : Bool :=
  match lookup u "age" with
  | Option.some v => v == Value.int a
  | Option.none => false

/-- The effective name criterion: applied only when the argument is truthy
(present and non-empty), as `if name:` gates the filter. -/
def critName : Option String → Record → Bool
| Option.none, _ => true
| Option.some n, u => if n.isEmpty then true else nameMatches u n

/-- The effective email criterion, gated by `if email:`. -/
def critEmail : Option String → Record → Bool
| Option.none, _ => true
| Option.some e, u => if e.isEmpty then true else emailMatches u e

/-- The effective age criterion, gated by `if age:` — the age `0` is falsy
and applies no filter. -/
def critAge : Option Int → Record → Bool
| Option.none, _ => true
| Option.some a, u => if a == 0 then true else ageMatches u a

/-- A first demonstration record, with id `"1"`. -/
def demoA : Record :=
  [("id", Value.str "1"), ("name", Value.str "Ann"),
   ("email", Value.str "ann@mail.com"), ("age", Value.int 30)]

/-- A second demonstration record, with id `"2"`. -/
def demoB : Record :=
  [("id", Value.str "2"), ("name", Value.str "Bob"),
   ("email", Value.str "bob@mail.com"), ("age", Value.int 40)]

/-! ## Characterization of the email regular expression -/

/-- From the spec's words: the anchored core pattern, as a decomposition —
one-or-more local characters, then `'@'`, then one-or-more domain
characters, then `'.'`, then one-or-more top-level-domain characters,
covering the whole character list. -/
def emailSpecCore (l : List Char) : Prop :=
  ∃ a d t : List Char,
    l = a ++ '@' :: (d ++ '.' :: t) ∧
    a ≠ [] ∧ (∀ c ∈ a, c ∈ localChars) ∧
    d ≠ [] ∧ (∀ c ∈ d, c ∈ domainChars) ∧
    t ≠ [] ∧ (∀ c ∈ t, c ∈ tldChars)

/-- From the spec's words: the claimed reading of `validate_email` — the
string itself matches the core pattern, anchored at its very end, with no
trailing characters of any kind. -/
def emailSpecAnchored (s : String) : Prop :=
  emailSpecCore s.data

lemma cls_rmatch_iff (cs : List Char) (x : List Char) :
    (cls cs).rmatch x = true ↔ ∃ c, c ∈ cs ∧ x = [c] := by
  induction cs with
  | nil => simp [cls]
  | cons c rest ih =>
    simp only [cls, List.foldr_cons] at ih ⊢
    rw [RegularExpression.add_rmatch_iff]
    constructor
    · rintro (h | h)
      · exact ⟨c, List.mem_cons_self c rest, (RegularExpression.char_rmatch_iff c x).mp h⟩
      · obtain ⟨d, hd, hx⟩ := ih.mp h
        exact ⟨d, List.mem_cons_of_mem c hd, hx⟩
    · rintro ⟨d, hd, rfl⟩
      rcases List.mem_cons.mp hd with rfl | hd
      · exact Or.inl ((RegularExpression.char_rmatch_iff d [d]).mpr rfl)
      · exact Or.inr (ih.mpr ⟨d, hd, rfl⟩)

lemma star_cls_rmatch_iff (cs : List Char) (x : List Char) :
    ((cls cs).star).rmatch x = true ↔ ∀ c ∈ x, c ∈ cs := by
  rw [RegularExpression.star_rmatch_iff]
  constructor
  · rintro ⟨S, rfl, hS⟩ c hc
    obtain ⟨t, htS, hct⟩ := List.mem_flatten.mp hc
    obtain ⟨d, hd, rfl⟩ := (cls_rmatch_iff cs t).mp (hS t htS).2
    obtain rfl : c = d := List.mem_singleton.mp hct
    exact hd
  · intro h
    refine ⟨x.map (fun c => [c]), ?_, ?_⟩
    · induction x with
      | nil => rfl
      | cons c rest ih => simpa using ih (fun d hd => h d (List.mem_cons_of_mem c hd))
    · rintro t ht
      obtain ⟨c, hc, rfl⟩ := List.mem_map.mp ht
      exact ⟨by simp, (cls_rmatch_iff cs [c]).mpr ⟨c, h c hc, rfl⟩⟩

lemma rep1_cls_rmatch_iff (cs : List Char) (x : List Char) :
    (rep1 (cls cs)).rmatch x = true ↔ x ≠ [] ∧ ∀ c ∈ x, c ∈ cs := by
  rw [rep1, RegularExpression.mul_rmatch_iff]
  constructor
  · rintro ⟨t, u, rfl, ht, hu⟩
    obtain ⟨c, hc, rfl⟩ := (cls_rmatch_iff cs t).mp ht
    have hu2 := (star_cls_rmatch_iff cs u).mp hu
    refine ⟨by simp, fun d hd => ?_⟩
    rcases List.mem_append.mp hd with hd | hd
    · obtain rfl : d = c := List.mem_singleton.mp hd
      exact hc
    · exact hu2 d hd
  · rintro ⟨hne, h⟩
    cases x with
    | nil => exact absurd rfl hne
    | cons c rest =>
      exact ⟨[c], rest, rfl,
        (cls_rmatch_iff cs [c]).mpr ⟨c, h c (List.mem_cons_self c rest), rfl⟩,
        (star_cls_rmatch_iff cs rest).mpr fun d hd => h d (List.mem_cons_of_mem c hd)⟩

lemma emailRE_rmatch_iff (x : List Char) :
    emailRE.rmatch x = true ↔ emailSpecCore x := by
  simp only [emailRE]
  rw [RegularExpression.mul_rmatch_iff]
  constructor
  · rintro ⟨a, rest1, rfl, ha, hrest1⟩
    rw [RegularExpression.mul_rmatch_iff] at hrest1
    obtain ⟨am, rest2, rfl, ham, hrest2⟩ := hrest1
    obtain rfl := (RegularExpression.char_rmatch_iff '@' am).mp ham
    rw [RegularExpression.mul_rmatch_iff] at hrest2
    obtain ⟨d, rest3, rfl, hd, hrest3⟩ := hrest2
    rw [RegularExpression.mul_rmatch_iff] at hrest3
    obtain ⟨dm, t, rfl, hdm, ht⟩ := hrest3
    obtain rfl := (RegularExpression.char_rmatch_iff '.' dm).mp hdm
    obtain ⟨hane, hac⟩ := (rep1_cls_rmatch_iff localChars a).mp ha
    obtain ⟨hdne, hdc⟩ := (rep1_cls_rmatch_iff domainChars d).mp hd
    obtain ⟨htne, htc⟩ := (rep1_cls_rmatch_iff tldChars t).mp ht
    exact ⟨a, d, t, by simp, hane, hac, hdne, hdc, htne, htc⟩
  · rintro ⟨a, d, t, rfl, hane, hac, hdne, hdc, htne, htc⟩
    refine ⟨a, '@' :: (d ++ '.' :: t), by simp,
      (rep1_cls_rmatch_iff localChars a).mpr ⟨hane, hac⟩, ?_⟩
    rw [RegularExpression.mul_rmatch_iff]
    refine ⟨['@'], d ++ '.' :: t, rfl,
      (RegularExpression.char_rmatch_iff '@' ['@']).mpr rfl, ?_⟩
    rw [RegularExpression.mul_rmatch_iff]
    refine ⟨d, '.' :: t, rfl, (rep1_cls_rmatch_iff domainChars d).mpr ⟨hdne, hdc⟩, ?_⟩
    rw [RegularExpression.mul_rmatch_iff]
    exact ⟨['.'], t, rfl, (RegularExpression.char_rmatch_iff '.' ['.']).mpr rfl,
      (rep1_cls_rmatch_iff tldChars t).mpr ⟨htne, htc⟩⟩

/-! ## Dictionary lemmas -/

lemma lookup_nil (k : String) : lookup ([] : Record) k = Option.none := rfl

lemma lookup_cons (p : String × Value) (rest : Record) (k : String) :
    lookup (p :: rest) k = if p.1 = k then Option.some p.2 else lookup rest k := by
  simp only [lookup, List.find?_cons]
  by_cases h : p.1 = k
  · simp [h]
  · simp [h, beq_eq_false_iff_ne.mpr h]

lemma lookup_dictInsert (r : Record) (k : String) (v : Value) (k2 : String) :
    lookup (dictInsert r k v) k2 = if k2 = k then Option.some v else lookup r k2 := by
  induction r with
  | nil =>
    by_cases h : k2 = k
    · subst h
      simp [dictInsert, lookup_cons]
    · have hk : k ≠ k2 := fun he => h he.symm
      simp [dictInsert, lookup_cons, lookup_nil, h, hk]
  | cons p rest ih =>
    simp only [dictInsert]
    by_cases hp : p.1 = k
    · rw [if_pos hp]
      by_cases h : k2 = k
      · subst h
        simp [lookup_cons]
      · have hk : k ≠ k2 := fun he => h he.symm
        have hpk2 : p.1 ≠ k2 := hp ▸ hk
        simp [lookup_cons, h, hk, hpk2]
    · rw [if_neg hp]
      by_cases h : k2 = k
      · subst h
        simp [lookup_cons, hp, ih]
      · simp [lookup_cons, ih, h]

lemma lookup_eq_none_of_not_mem_keys (r : Record) (k : String)
    (h : k ∉ r.map Prod.fst) : lookup r k = Option.none := by
  induction r with
  | nil => rfl
  | cons p rest ih =>
    simp only [List.map_cons, List.mem_cons] at h
    push_neg at h
    rw [lookup_cons, if_neg (fun he => h.1 he.symm), ih h.2]

/-- The merge behaviour of `user.update(updated_user)`: a key mentioned in
the update object takes its new value, a key not mentioned keeps its old
value. -/
lemma lookup_dictUpdate (u updated_user : Record) (k : String)
    (h : keysNodup updated_user) :
    lookup (dictUpdate u updated_user) k =
      match lookup updated_user k with
      | Option.some v => Option.some v
      | Option.none => lookup u k := by
  induction updated_user generalizing u with
  | nil => rfl
  | cons p rest ih =>
    have hnd : keysNodup rest := by
      simpa [keysNodup] using (List.nodup_cons.mp h).2
    have hk : p.1 ∉ rest.map Prod.fst := (List.nodup_cons.mp h).1
    show lookup (dictUpdate (dictInsert u p.1 p.2) rest) k = _
    rw [ih (dictInsert u p.1 p.2) hnd, lookup_cons]
    by_cases hkp : k = p.1
    · rw [lookup_eq_none_of_not_mem_keys rest k (hkp ▸ hk)]
      simp [hkp, lookup_dictInsert]
    · rw [lookup_dictInsert, if_neg hkp, if_neg (fun he => hkp he.symm)]

/-! ## Scan lemmas for `read_user` / `create_user` -/

lemma scanFind_eq_notFound (l : List Record) (v : Value)
    (h : ∀ u ∈ l, ∃ w, lookup u "id" = Option.some w ∧ w ≠ v) :
    scanFind l v = ReadResult.notFound := by
  induction l with
  | nil => rfl
  | cons u rest ih =>
    obtain ⟨w, hw, hne⟩ := h u (List.mem_cons_self u rest)
    simp only [scanFind, hw, beq_eq_false_iff_ne.mpr hne]
    exact ih fun u hu => h u (List.mem_cons_of_mem _ hu)

lemma scanFind_ne_exc (l : List Record) (v : Value) (h : allHaveId l) :
    scanFind l v ≠ ReadResult.exc := by
  induction l with
  | nil => simp [scanFind]
  | cons u rest ih =>
    obtain ⟨w, hw⟩ := Option.isSome_iff_exists.mp (h u (List.mem_cons_self u rest))
    simp only [scanFind, hw]
    by_cases he : w == v
    · simp [he]
    · simp only [he, Bool.false_eq_true, if_false]
      exact ih fun u hu => h u (List.mem_cons_of_mem _ hu)

/-- With well-formed records, the truthiness of `read_user` on a truthy id
is exactly "some record with that id exists": a found record contains its
`'id'` key, hence is a non-empty dict, hence truthy. -/
lemma scanFind_truthy_iff (l : List Record) (v : Value) (h : allHaveId l) :
    (scanFind l v).truthy = true ↔ ∃ u ∈ l, lookup u "id" = Option.some v := by
  induction l with
  | nil => simp [scanFind, ReadResult.truthy]
  | cons u rest ih =>
    obtain ⟨w, hw⟩ := Option.isSome_iff_exists.mp (h u (List.mem_cons_self u rest))
    simp only [scanFind, hw]
    by_cases he : w = v
    · subst he
      simp only [beq_self_eq_true, if_true]
      have : u ≠ [] := fun hnil => by simp [hnil, lookup_nil] at hw
      simp only [ReadResult.truthy, List.isEmpty_eq_true]
      constructor
      · intro _
        exact ⟨u, List.mem_cons_self u rest, hw⟩
      · intro _
        simpa using this
    · simp only [beq_eq_false_iff_ne.mpr he, Bool.false_eq_true, if_false]
      rw [ih fun u hu => h u (List.mem_cons_of_mem _ hu)]
      constructor
      · rintro ⟨x, hx, hid⟩
        exact ⟨x, List.mem_cons_of_mem _ hx, hid⟩
      · rintro ⟨x, hx, hid⟩
        rcases List.mem_cons.mp hx with rfl | hx
        · rw [hw] at hid
          exact absurd (Option.some.inj hid) he
        · exact ⟨x, hx, hid⟩

/-! ## Unfolding lemmas for `update_user` and `create_user` -/

/-- When every record has an id and none carries the target id, the update
scan falls through to `return False`, leaving the collection unchanged. -/
lemma update_user_no_match (users : List Record) (v : Value) (updated_user : Record)
    (hkeys : allHaveId users) (hnone : ∀ u ∈ users, lookup u "id" ≠ Option.some v) :
    update_user users v updated_user = (Signal.notFound, users) := by
  induction users with
  | nil => rfl
  | cons u rest ih =>
    obtain ⟨w, hw⟩ := Option.isSome_iff_exists.mp (hkeys u (List.mem_cons_self u rest))
    have hne : w ≠ v := fun he => hnone u (List.mem_cons_self u rest) (he ▸ hw)
    simp only [update_user, hw, beq_eq_false_iff_ne.mpr hne, Bool.false_eq_true, if_false]
    rw [ih (fun x hx => hkeys x (List.mem_cons_of_mem u hx))
      (fun x hx => hnone x (List.mem_cons_of_mem u hx))]

/-- When the scan reaches a first matching record, `update_user` behaves as
the email check followed by the in-place merge of that record. -/
lemma update_user_found (pre : List Record) (u : Record) (post : List Record)
    (v : Value) (updated_user : Record)
    (hpre : ∀ p ∈ pre, ∃ w, lookup p "id" = Option.some w ∧ w ≠ v)
    (hu : lookup u "id" = Option.some v) :
    update_user (pre ++ u :: post) v updated_user =
      match lookup updated_user "email" with
      | Option.some (Value.str em) =>
        if validate_email em then (Signal.ok, pre ++ dictUpdate u updated_user :: post)
        else (Signal.invalidEmail, pre ++ u :: post)
      | Option.some (Value.int _) => (Signal.exc, pre ++ u :: post)
      | Option.none => (Signal.ok, pre ++ dictUpdate u updated_user :: post) := by
  induction pre with
  | nil =>
    simp only [List.nil_append, update_user, hu, beq_self_eq_true, if_true]
  | cons p pre2 ih =>
    obtain ⟨w, hw, hne⟩ := hpre p (List.mem_cons_self p pre2)
    simp only [List.cons_append, update_user, hw, beq_eq_false_iff_ne.mpr hne,
      Bool.false_eq_true, if_false, List.append_eq]
    rw [ih (fun q hq => hpre q (List.mem_cons_of_mem p hq))]
    cases hem : lookup updated_user "email" with
    | none => rfl
    | some val =>
      cases val with
      | str em => by_cases hv : validate_email em <;> simp [hv]
      | int n => rfl

/-- When the argument record has an id and a string email and the duplicate
scan does not raise, `create_user` is the duplicate check followed by the
email check followed by the append. -/
lemma create_user_eq (users : List Record) (user : Record) (uid : Value) (em : String)
    (hid : lookup user "id" = Option.some uid)
    (hem : lookup user "email" = Option.some (Value.str em))
    (hexc : read_user users (Option.some uid) ≠ ReadResult.exc) :
    create_user users user =
      if (read_user users (Option.some uid)).truthy then (Signal.dupId, users)
      else if validate_email em then (Signal.ok, users ++ [user])
      else (Signal.invalidEmail, users) := by
  simp only [create_user, hid]
  rw [if_neg hexc]
  by_cases ht : (read_user users (Option.some uid)).truthy
  · simp [ht]
  · simp [ht, hem]

/-! ## Filter lemmas for `search_users` -/

lemma filterName_eq (l : List Record) (n : String)
    (h : ∀ u ∈ l, isStrAt u "name" = true) :
    filterName l n = Option.some (l.filter (fun u => nameMatches u n)) := by
  induction l with
  | nil => rfl
  | cons u rest ih =>
    have hu := h u (List.mem_cons_self u rest)
    have hrest := ih (fun x hx => h x (List.mem_cons_of_mem u hx))
    cases hl : lookup u "name" with
    | none => simp [isStrAt, hl] at hu
    | some v =>
      cases v with
      | int m => simp [isStrAt, hl] at hu
      | str s =>
        have hnm : nameMatches u n = (strLower s == strLower n) := by
          simp [nameMatches, hl]
        by_cases hm : strLower s = strLower n <;>
          simp [filterName, hl, hrest, List.filter_cons, hnm, hm]

lemma filterEmail_eq (l : List Record) (e : String)
    (h : ∀ u ∈ l, isStrAt u "email" = true) :
    filterEmail l e = Option.some (l.filter (fun u => emailMatches u e)) := by
  induction l with
  | nil => rfl
  | cons u rest ih =>
    have hu := h u (List.mem_cons_self u rest)
    have hrest := ih (fun x hx => h x (List.mem_cons_of_mem u hx))
    cases hl : lookup u "email" with
    | none => simp [isStrAt, hl] at hu
    | some v =>
      cases v with
      | int m => simp [isStrAt, hl] at hu
      | str s =>
        have hem : emailMatches u e = (strLower s == strLower e) := by
          simp [emailMatches, hl]
        by_cases hm : strLower s = strLower e <;>
          simp [filterEmail, hl, hrest, List.filter_cons, hem, hm]

lemma filterAge_eq (l : List Record) (a : Int)
    (h : ∀ u ∈ l, (lookup u "age").isSome = true) :
    filterAge l a = Option.some (l.filter (fun u => ageMatches u a)) := by
  induction l with
  | nil => rfl
  | cons u rest ih =>
    obtain ⟨v, hv⟩ := Option.isSome_iff_exists.mp (h u (List.mem_cons_self u rest))
    have hrest := ih (fun x hx => h x (List.mem_cons_of_mem u hx))
    have ham : ageMatches u a = (v == Value.int a) := by
      simp [ageMatches, hv]
    by_cases hm : v = Value.int a <;>
      simp [filterAge, hv, hrest, List.filter_cons, ham, hm]

/-! ## Round-trip of persistence -/

lemma decodeList_map {α β : Type} (f : α → Option β) (g : β → α) (l : List β)
    (h : ∀ b ∈ l, f (g b) = Option.some b) :
    decodeList f (l.map g) = Option.some l := by
  induction l with
  | nil => rfl
  | cons b rest ih =>
    simp only [List.map_cons, decodeList, h b (List.mem_cons_self b rest)]
    rw [ih fun b hb => h b (List.mem_cons_of_mem _ hb)]
    rfl

lemma decodeRecord_encodeRecord (r : Record) :
    decodeRecord (encodeRecord r) = Option.some r := by
  simp only [encodeRecord, decodeRecord]
  refine decodeList_map _ _ r fun p _ => ?_
  cases p with
  | mk k v => cases v <;> rfl

/-! ## Claim theorems -/

/-- C1 (code bug): `update_user` never re-checks id uniqueness, so a
successful update whose partial-field object contains an `'id'` key can
duplicate an existing id: starting from records with ids `"1"` and `"2"`,
`update_user("1", {'id': "2"})` returns `True` and leaves two records whose
`'id'` values are both `"2"`, violating the spec's id-uniqueness
invariant. -/
theorem update_user_breaks_id_uniqueness :
    (update_user [demoA, demoB] (Value.str "1") [("id", Value.str "2")]).1 = Signal.ok ∧
    ((update_user [demoA, demoB] (Value.str "1") [("id", Value.str "2")]).2.map
      (fun u => lookup u "id")) =
      [Option.some (Value.str "2"), Option.some (Value.str "2")] := by
  constructor <;> rfl

/-- C2 counterexample: for the id `""` the round trip fails — on
`[{id: ""}, {id: "x"}]`, `delete_user("")` succeeds (the scan compares
`user['id'] == ""` with no truthiness test), but the subsequent
`read_user("")` tests the id for truthiness and returns the full remaining
collection instead of the `NotFound` outcome `None`. -/
theorem delete_read_empty_id_cex :
    (delete_user [[("id", Value.str "")], [("id", Value.str "x")]] (Value.str "")).1 =
      Signal.ok ∧
    read_user
      (delete_user [[("id", Value.str "")], [("id", Value.str "x")]] (Value.str "")).2
      (Option.some (Value.str "")) ≠ ReadResult.notFound := by
  decide

/-- C2 amended: over collections of well-formed user records (each record
carries an `'id'` key and no two records share an id value, as the spec's
data model demands) and for a truthy id — non-empty string or non-zero int —
a successful `delete_user(id)` followed by `read_user(id)` yields the
`NotFound` outcome `None`. -/
theorem delete_then_read_notFound (users : List Record) (v : Value)
    (hkeys : allHaveId users) (hnd : idsNodup users) (ht : v.truthy = true)
    (hok : (delete_user users v).1 = Signal.ok) :
    read_user (delete_user users v).2 (Option.some v) = ReadResult.notFound := by
  induction users with
  | nil => exact absurd hok (by simp [delete_user])
  | cons u rest ih =>
    obtain ⟨w, hw⟩ := Option.isSome_iff_exists.mp (hkeys u (List.mem_cons_self u rest))
    simp only [idsNodup, List.map_cons, List.nodup_cons] at hnd
    by_cases he : w = v
    · rw [he] at hw
      have hdel : delete_user (u :: rest) v = (Signal.ok, rest) := by
        simp [delete_user, hw]
      rw [hdel]
      simp only [read_user, ht, if_true]
      apply scanFind_eq_notFound
      intro x hx
      obtain ⟨wx, hwx⟩ := Option.isSome_iff_exists.mp (hkeys x (List.mem_cons_of_mem u hx))
      refine ⟨wx, hwx, fun heq => ?_⟩
      subst heq
      exact hnd.1 (hw ▸ List.mem_map.mpr ⟨x, hx, hwx⟩)
    · have hdel : delete_user (u :: rest) v =
          ((delete_user rest v).1, u :: (delete_user rest v).2) := by
        simp [delete_user, hw, beq_eq_false_iff_ne.mpr he]
      rw [hdel] at hok ⊢
      have hprev := ih (fun x hx => hkeys x (List.mem_cons_of_mem u hx)) hnd.2 hok
      simp only [read_user, ht, if_true] at hprev ⊢
      simp [scanFind, hw, beq_eq_false_iff_ne.mpr he, hprev]

/-- C2 witness: a concrete instance of the amended round trip. -/
theorem delete_then_read_notFound_witness :
    read_user (delete_user [demoA, demoB] (Value.str "1")).2
      (Option.some (Value.str "1")) = ReadResult.notFound :=
  delete_then_read_notFound [demoA, demoB] (Value.str "1")
    (by decide) (by decide) (by decide) (by decide)

/-- C3 counterexample: with the criterion age = 0 provided, `search_users`
returns a record whose age is 30, because `if age:` treats the provided
value 0 as "no criterion"; the claim requires exact numeric equality for a
provided age, including age 0, under which the result would be empty. -/
theorem search_age_zero_cex :
    search_users [demoA] Option.none Option.none (Option.some 0) =
      Option.some [demoA] ∧
    lookup demoA "age" ≠ Option.some (Value.int 0) := by
  refine ⟨rfl, by decide⟩

/-- C3 amended: over records carrying string names, string emails and an
age key, `search_users` returns exactly the sub-list — in collection
insertion order — of records satisfying every TRUTHY criterion: a truthy
name (non-empty string) is compared case-insensitively for exact match, a
truthy email likewise, a non-zero age for exact numeric equality; an absent
criterion, an empty-string name or email, and the age 0 apply no filter. -/
theorem search_users_characterization (users : List Record)
    (name email : Option String) (age : Option Int) (hwf : searchWF users) :
    search_users users name email age =
      Option.some (users.filter
        (fun u => critName name u && critEmail email u && critAge age u)) := by
  have h1 : (match name with
      | Option.some n => if n.isEmpty then Option.some users else filterName users n
      | Option.none => Option.some users) =
      Option.some (users.filter (fun u => critName name u)) := by
    cases name with
    | none => simp [critName]
    | some n =>
      by_cases hne : n.isEmpty
      · simp [hne, critName]
      · have hni : n.isEmpty = false := by simpa using hne
        simp only [hni, Bool.false_eq_true, if_false]
        rw [filterName_eq users n (fun u hu => (hwf u hu).1)]
        refine congrArg Option.some (List.filter_congr fun u hu => ?_)
        simp [critName, hne]
  have h2 : (match email with
      | Option.some e =>
        if e.isEmpty then Option.some (users.filter (fun u => critName name u))
        else filterEmail (users.filter (fun u => critName name u)) e
      | Option.none => Option.some (users.filter (fun u => critName name u))) =
      Option.some ((users.filter (fun u => critName name u)).filter
        (fun u => critEmail email u)) := by
    cases email with
    | none => simp [critEmail]
    | some e =>
      by_cases hne : e.isEmpty
      · simp [hne, critEmail]
      · have hni : e.isEmpty = false := by simpa using hne
        simp only [hni, Bool.false_eq_true, if_false]
        rw [filterEmail_eq (users.filter (fun u => critName name u)) e
          (fun u hu => (hwf u (List.mem_of_mem_filter hu)).2.1)]
        refine congrArg Option.some (List.filter_congr fun u hu => ?_)
        simp [critEmail, hne]
  have h3 : (match age with
      | Option.some a =>
        if a == 0 then Option.some ((users.filter (fun u => critName name u)).filter
          (fun u => critEmail email u))
        else filterAge ((users.filter (fun u => critName name u)).filter
          (fun u => critEmail email u)) a
      | Option.none => Option.some ((users.filter (fun u => critName name u)).filter
        (fun u => critEmail email u))) =
      Option.some (((users.filter (fun u => critName name u)).filter
        (fun u => critEmail email u)).filter (fun u => critAge age u)) := by
    cases age with
    | none => simp [critAge]
    | some a =>
      by_cases hz : a = 0
      · simp [hz, critAge]
      · have hzi : (a == 0) = false := by simpa using hz
        simp only [hzi, Bool.false_eq_true, if_false]
        rw [filterAge_eq ((users.filter (fun u => critName name u)).filter
          (fun u => critEmail email u)) a
          (fun u hu =>
            (hwf u (List.mem_of_mem_filter (List.mem_of_mem_filter hu))).2.2)]
        refine congrArg Option.some (List.filter_congr fun u hu => ?_)
        simp [critAge, hz]
  simp only [search_users]
  rw [h1]
  simp only []
  rw [h2]
  simp only []
  rw [h3]
  refine congrArg Option.some ?_
  rw [List.filter_filter, List.filter_filter]
  refine List.filter_congr fun u hu => ?_
  cases critName name u <;> cases critEmail email u <;> cases critAge age u <;> rfl

/-- C3 witness: searching `[demoA, demoB]` by name `"ann"` returns exactly
`[demoA]`, matched case-insensitively. -/
theorem search_users_characterization_witness :
    search_users [demoA, demoB] (Option.some "ann") Option.none Option.none =
      Option.some [demoA] := by
  rw [search_users_characterization [demoA, demoB] (Option.some "ann")
    Option.none Option.none (by decide)]
  decide

/-- C4 counterexample: the claim says `validate_email` accepts exactly the
strings matching the pattern with no trailing characters, including no
trailing newline; but Python's `$` also matches just before a final newline,
so `validate_email "a@b.c\n"` returns `True` while the claimed anchored
pattern does not match that string. -/
theorem validate_email_trailing_newline_cex :
    validate_email "a@b.c\n" = true ∧ ¬ emailSpecAnchored "a@b.c\n" := by
  refine ⟨by decide, fun h => ?_⟩
  have hm : emailRE.rmatch "a@b.c\n".data = true := (emailRE_rmatch_iff _).mpr h
  have hne : emailRE.rmatch "a@b.c\n".data = false := by decide
  rw [hm] at hne
  exact Bool.noConfusion hne

/-- C4 amended: `validate_email s` returns true iff `s` matches the pattern
one-or-more of `[A-Za-z0-9_.+-]`, `'@'`, one-or-more of `[A-Za-z0-9-]`,
`'.'`, one-or-more of `[A-Za-z0-9-.]`, anchored at the start and at the end,
where — per Python `$` semantics — the match may end either at the very end
of the string or just before a newline that is the string's last
character. -/
theorem validate_email_characterization (s : String) :
    validate_email s = true ↔
      (emailSpecCore s.data ∨
        (s.data.getLast? = Option.some '\n' ∧ emailSpecCore s.data.dropLast)) := by
  simp only [validate_email, Bool.or_eq_true, Bool.and_eq_true, beq_iff_eq,
    emailRE_rmatch_iff]

/-- C5 counterexample: on the non-empty collection `[demoA]` (which has no
record with id `""`), creating a record with id `""` and a valid email fails
with the duplicate-id outcome instead of appending and succeeding, because
`read_user("")` returns the whole (truthy) collection rather than looking
the id up. -/
theorem create_empty_id_cex :
    create_user [demoA]
      [("id", Value.str ""), ("name", Value.str "Eve"),
       ("email", Value.str "eve@mail.com"), ("age", Value.int 20)] =
      (Signal.dupId, [demoA]) ∧
    (∀ u ∈ [demoA], lookup u "id" ≠ Option.some (Value.str "")) ∧
    validate_email "eve@mail.com" = true := by
  refine ⟨rfl, by decide, by decide⟩

/-- C5 amended: for a record carrying an `'id'` and a string `'email'`, over
a collection whose records all carry `'id'` keys, `create_user` first fails
with `DuplicateId` exactly when `read_user` of the new id returns a truthy
result — for a truthy id this means a record with that id exists, but for a
falsy id (such as `""`) it means only that the collection is non-empty —
then fails with `InvalidEmail` when the email does not validate, and
otherwise appends the record at the end, persists, and returns success. -/
theorem create_user_characterization :
    (∀ (users : List Record) (user : Record) (uid : Value) (em : String),
      lookup user "id" = Option.some uid →
      lookup user "email" = Option.some (Value.str em) →
      allHaveId users →
      create_user users user =
        if (read_user users (Option.some uid)).truthy then (Signal.dupId, users)
        else if validate_email em then (Signal.ok, users ++ [user])
        else (Signal.invalidEmail, users))
    ∧ (∀ (users : List Record) (uid : Value), allHaveId users → uid.truthy = true →
      ((read_user users (Option.some uid)).truthy = true ↔
        ∃ u ∈ users, lookup u "id" = Option.some uid))
    ∧ (∀ (users : List Record) (uid : Value), uid.truthy = false →
      ((read_user users (Option.some uid)).truthy = true ↔ users ≠ [])) := by
  refine ⟨fun users user uid em hid hem hkeys => ?_, fun users uid hkeys ht => ?_,
    fun users uid ht => ?_⟩
  · refine create_user_eq users user uid em hid hem ?_
    simp only [read_user]
    by_cases ht : uid.truthy
    · simpa [ht] using scanFind_ne_exc users uid hkeys
    · simp [ht]
  · simp only [read_user, ht, if_true]
    exact scanFind_truthy_iff users uid hkeys
  · simp only [read_user, ht, Bool.false_eq_true, if_false, ReadResult.truthy,
      Bool.not_eq_eq_eq_not, Bool.not_true, List.isEmpty_eq_false]

/-- C5 witness: creating a fresh valid record on `[demoA]` appends it. -/
theorem create_user_characterization_witness :
    create_user [demoA] demoB = (Signal.ok, [demoA, demoB]) := by
  have h := create_user_characterization.1 [demoA] demoB (Value.str "2") "bob@mail.com"
    (by decide) (by decide) (by decide)
  rw [h]
  decide

/-- C6: an email value failing `validate_email` makes `create_user` and
`update_user` fail without any mutation of the collection; moreover the
failure outcome is precisely `InvalidEmail` whenever the earlier check of
the operation passes — for create, when the duplicate-id check passes; for
update, when a matching record is found. -/
theorem invalid_email_rejected :
    (∀ (users : List Record) (user : Record) (em : String),
      lookup user "email" = Option.some (Value.str em) → validate_email em = false →
      (create_user users user).1 ≠ Signal.ok ∧ (create_user users user).2 = users)
    ∧ (∀ (users : List Record) (user : Record) (em : String) (uid : Value),
      lookup user "email" = Option.some (Value.str em) → validate_email em = false →
      lookup user "id" = Option.some uid →
      read_user users (Option.some uid) ≠ ReadResult.exc →
      (read_user users (Option.some uid)).truthy = false →
      create_user users user = (Signal.invalidEmail, users))
    ∧ (∀ (users : List Record) (v : Value) (updated_user : Record) (em : String),
      lookup updated_user "email" = Option.some (Value.str em) →
      validate_email em = false →
      (update_user users v updated_user).1 ≠ Signal.ok ∧
        (update_user users v updated_user).2 = users)
    ∧ (∀ (pre : List Record) (u : Record) (post : List Record) (v : Value)
        (updated_user : Record) (em : String),
      (∀ p ∈ pre, ∃ w, lookup p "id" = Option.some w ∧ w ≠ v) →
      lookup u "id" = Option.some v →
      lookup updated_user "email" = Option.some (Value.str em) →
      validate_email em = false →
      update_user (pre ++ u :: post) v updated_user =
        (Signal.invalidEmail, pre ++ u :: post)) := by
  refine ⟨fun users user em hem hval => ?_, fun users user em uid hem hval hid hexc ht => ?_,
    fun users v updated_user em hem hval => ?_,
    fun pre u post v updated_user em hpre hu hem hval => ?_⟩
  · cases hid : lookup user "id" with
    | none => refine ⟨?_, ?_⟩ <;> simp [create_user, hid]
    | some uid =>
      by_cases hexc : read_user users (Option.some uid) = ReadResult.exc
      · refine ⟨?_, ?_⟩ <;> simp [create_user, hid, hexc]
      · by_cases ht : (read_user users (Option.some uid)).truthy
        · refine ⟨?_, ?_⟩ <;> simp [create_user, hid, hexc, ht]
        · refine ⟨?_, ?_⟩ <;> simp [create_user, hid, hexc, ht, hem, hval]
  · simp only [create_user, hid]
    rw [if_neg hexc]
    simp [ht, hem, hval]
  · induction users with
    | nil => exact ⟨by simp [update_user], rfl⟩
    | cons u rest ih =>
      cases hw : lookup u "id" with
      | none => exact ⟨by simp [update_user, hw], by simp [update_user, hw]⟩
      | some w =>
        by_cases he : w = v
        · subst he
          refine ⟨?_, ?_⟩ <;> simp [update_user, hw, hem, hval]
        · have hbeq := beq_eq_false_iff_ne.mpr he
          simp only [update_user, hw, hbeq, Bool.false_eq_true, if_false]
          exact ⟨by simpa using ih.1, by simpa using ih.2⟩
  · rw [update_user_found pre u post v updated_user hpre hu]
    simp [hem, hval]

/-- C6 witness: concrete invalid-email rejections for create and update. -/
theorem invalid_email_rejected_witness :
    create_user [] [("id", Value.str "7"), ("email", Value.str "not-an-email")] =
      (Signal.invalidEmail, []) ∧
    update_user [demoA] (Value.str "1") [("email", Value.str "not-an-email")] =
      (Signal.invalidEmail, [demoA]) :=
  ⟨invalid_email_rejected.2.1 [] [("id", Value.str "7"), ("email", Value.str "not-an-email")]
      "not-an-email" (Value.str "7") rfl (by decide) rfl (by decide) (by decide),
    by
      have h := invalid_email_rejected.2.2.2 []
        [("id", Value.str "1"), ("name", Value.str "Ann"),
         ("email", Value.str "ann@mail.com"), ("age", Value.int 30)]
        [] (Value.str "1") [("email", Value.str "not-an-email")] "not-an-email"
        (by decide) (by decide) rfl (by decide)
      simpa using h⟩

/-- C7: updating a non-existent id fails with `NotFound` and leaves the
collection unchanged; updating an existing record (when the email check
passes) merges the partial fields into that record in place — a key
mentioned in the partial fields takes its new value, a key not mentioned
keeps its old one. -/
theorem update_notFound_and_merge :
    (∀ (users : List Record) (v : Value) (updated_user : Record),
      allHaveId users → (∀ u ∈ users, lookup u "id" ≠ Option.some v) →
      update_user users v updated_user = (Signal.notFound, users))
    ∧ (∀ (pre : List Record) (u : Record) (post : List Record) (v : Value)
        (updated_user : Record),
      (∀ p ∈ pre, ∃ w, lookup p "id" = Option.some w ∧ w ≠ v) →
      lookup u "id" = Option.some v →
      (lookup updated_user "email" = Option.none ∨
        ∃ em, lookup updated_user "email" = Option.some (Value.str em) ∧
          validate_email em = true) →
      update_user (pre ++ u :: post) v updated_user =
        (Signal.ok, pre ++ dictUpdate u updated_user :: post))
    ∧ (∀ (u updated_user : Record) (k : String), keysNodup updated_user →
      lookup (dictUpdate u updated_user) k =
        match lookup updated_user k with
        | Option.some v => Option.some v
        | Option.none => lookup u k) := by
  refine ⟨update_user_no_match, fun pre u post v updated_user hpre hu hem => ?_,
    fun u updated_user k h => lookup_dictUpdate u updated_user k h⟩
  rw [update_user_found pre u post v updated_user hpre hu]
  rcases hem with hem | ⟨em, hem, hval⟩
  · simp [hem]
  · simp [hem, hval]

/-- C7 witness: updating a missing id leaves `[demoA]` unchanged with
`NotFound`; updating demoA's age merges in place, new value for the
mentioned key, old value for an unmentioned one. -/
theorem update_notFound_and_merge_witness :
    update_user [demoA] (Value.str "9") [("age", Value.int 31)] =
      (Signal.notFound, [demoA]) ∧
    update_user [demoA] (Value.str "1") [("age", Value.int 31)] =
      (Signal.ok, [dictUpdate demoA [("age", Value.int 31)]]) ∧
    lookup (dictUpdate demoA [("age", Value.int 31)]) "age" = Option.some (Value.int 31) ∧
    lookup (dictUpdate demoA [("age", Value.int 31)]) "email" =
      Option.some (Value.str "ann@mail.com") :=
  ⟨update_notFound_and_merge.1 [demoA] (Value.str "9") [("age", Value.int 31)]
      (by decide) (by decide),
    by
      have h := update_notFound_and_merge.2.1 [] demoA [] (Value.str "1")
        [("age", Value.int 31)] (by decide) (by decide) (Or.inl rfl)
      simpa using h,
    by
      rw [update_notFound_and_merge.2.2 demoA [("age", Value.int 31)] "age" (by decide)]
      rfl,
    by
      rw [update_notFound_and_merge.2.2 demoA [("age", Value.int 31)] "email" (by decide)]
      rfl⟩

/-- C9: creating a record whose id is the empty string fails with the
duplicate-id outcome on every non-empty collection — even one containing no
record with the empty-string id — because `read_user("")` returns the full
collection and its truthiness is mistaken for an existing record; on the
empty collection the same create succeeds. -/
theorem create_empty_id_behavior :
    (∀ (users : List Record) (user : Record),
      lookup user "id" = Option.some (Value.str "") → users ≠ [] →
      create_user users user = (Signal.dupId, users))
    ∧ (∀ (user : Record) (em : String),
      lookup user "id" = Option.some (Value.str "") →
      lookup user "email" = Option.some (Value.str em) → validate_email em = true →
      create_user [] user = (Signal.ok, [user])) := by
  constructor
  · intro users user hid hne
    have hempty : users.isEmpty = false := List.isEmpty_eq_false.mpr hne
    have hread : read_user users (Option.some (Value.str "")) = ReadResult.allUsers users := rfl
    simp [create_user, hid, hread, ReadResult.truthy, hempty]
  · intro user em hid hem hval
    simp only [create_user, hid, hem, hval, read_user, ReadResult.truthy, Value.truthy]
    rfl

/-- C9 witness: with no empty-string id present, the create fails on the
non-empty collection `[demoB]` and succeeds on the empty collection. -/
theorem create_empty_id_behavior_witness :
    create_user [demoB]
      [("id", Value.str ""), ("email", Value.str "eve@mail.com")] =
      (Signal.dupId, [demoB]) ∧
    create_user []
      [("id", Value.str ""), ("email", Value.str "eve@mail.com")] =
      (Signal.ok, [[("id", Value.str ""), ("email", Value.str "eve@mail.com")]]) :=
  ⟨create_empty_id_behavior.1 [demoB]
      [("id", Value.str ""), ("email", Value.str "eve@mail.com")] rfl (by decide),
    create_empty_id_behavior.2
      [("id", Value.str ""), ("email", Value.str "eve@mail.com")] "eve@mail.com"
      rfl rfl (by decide)⟩

/-- C8: round-trip — persisting any collection with `save_users` and
reloading the stored content with `load_users` yields the same collection,
field for field, record order preserved. -/
theorem save_load_roundtrip (users : List Record) :
    load_users (Option.some (save_users users)) = Option.some users := by
  simp only [save_users, load_users]
  exact decodeList_map decodeRecord encodeRecord users
    fun r _ => decodeRecord_encodeRecord r

/-- C10: `read_user` with the empty string as the id argument does not
perform a lookup; the id is tested for truthiness, so the empty string takes
the same branch as an omitted id and the full collection is returned. -/
theorem read_user_empty_id (users : List Record) :
    read_user users (Option.some (Value.str "")) = ReadResult.allUsers users ∧
    read_user users Option.none = ReadResult.allUsers users :=
  ⟨rfl, rfl⟩

end UserManager
